import Mathlib

/-!
Verification development for the `hipaa-rag` document pipeline.

The definitions below are a shallow embedding of the repository code:
* `src/hipaa_rag/core.py` — per-page result reconciliation
  (`SecureRAG._merge_extracted_pages`, the answer-combining block of
  `SecureRAG.query`, and its token accounting), and
* `src/hipaa_rag/loader.py` — type detection (`detect_document_type`),
  page streaming (`get_pages`) and page counting (`get_page_count`).

Python strings are modelled by `String`, Python `str.strip()` by `pyStrip`
(ASCII whitespace), `str.lower()` by `pyLower` (ASCII case folding), and
Python dicts (which preserve insertion order and key uniqueness) by
association lists over `String`.
-/

/-- ASCII whitespace, as stripped by Python `str.strip()` on the inputs
this pipeline sees. -/
def isWs (c : Char) : Bool :=
  c == ' ' || c == '\t' || c == '\n' || c == '\r'

/-- Drop leading whitespace characters. -/
def dropWs : List Char → List Char
  | [] => []
  | c :: cs => if isWs c then dropWs cs else c :: cs

/-- Model of Python `str.strip()`: remove leading and trailing whitespace. -/
def pyStrip (s : String) : String :=
  ⟨dropWs ((dropWs s.data.reverse).reverse)⟩

/-- ASCII lower-casing of one character, as Python `str.lower()` does on
the ASCII field names this pipeline uses. -/
def lowerChar (c : Char) : Char :=
  if 'A' ≤ c ∧ c ≤ 'Z' then Char.ofNat (c.toNat + 32) else c

/-- Model of Python `str.lower()`. -/
def pyLower (s : String) : String :=
  ⟨s.data.map lowerChar⟩

/-- Model of Python `sep.join(parts)`. -/
def joinSep (sep : String) : List String → String
  | [] => ""
  | [s] => s
  | s :: rest => s ++ sep ++ joinSep sep rest

/-- Decimal digit character. -/
def digitChar (n : Nat) : Char :=
  Char.ofNat (48 + n)

/-- Fuelled decimal rendering of a natural number. -/
def natToStrAux : Nat → Nat → List Char
  | 0, _ => []
  | fuel + 1, n => if n < 10 then [digitChar n] else natToStrAux fuel (n / 10) ++ [digitChar (n % 10)]

/-- Decimal rendering of a natural number (model of Python string formatting). -/
def natToStr (n : Nat) : String :=
  ⟨natToStrAux (n + 1) n⟩

/-- The JSON-ish values the analyzer returns for a field, per the data model:
a scalar string, a list of strings, or null. -/
inductive Value where
  | vnull : Value
  | vstr : String → Value
  | vlist : List String → Value
deriving DecidableEq

/-- Model of Python `str(v)` on `Value`s.  (For lists Python additionally
quotes the elements; only non-blankness of the rendering is ever consumed
by the code, which quoting does not affect.) -/
def pyStr : Value → String
  | .vnull => "None"
  | .vstr s => s
  | .vlist xs => "[" ++ joinSep ", " xs ++ "]"

/-- Python truthiness on `Value`s (`None`, `""` and `[]` are falsy). -/
def truthy : Value → Bool
  | .vnull => false
  | .vstr s => s ≠ ""
  | .vlist xs => xs ≠ []

/-- `core.py` line 271: `v = [v] if v not in (None, "") else []` applied
after `not isinstance(v, list)` — coerce a bare scalar to a list. -/
def coerceList : Value → List String
  | .vnull => []
  | .vstr s => if s = "" then [] else [s]
  | .vlist xs => xs

/-- `core.py` lines 274/281: `[str(x).strip() for x in v if x]` on the
coerced list — keep truthy entries, then strip each. -/
def cleanNew (v : Value) : List String :=
  ((coerceList v).filter (fun x => x ≠ "")).map pyStrip

/-- `core.py` lines 276-277: `if not isinstance(existing, list): existing = [existing]`.
For list-like keys the merged store only ever holds `vlist` values, so the
scalar cases are unreachable; they mirror Python wrapping the raw value. -/
def listElems : Value → List String
  | .vlist xs => xs
  | .vstr s => [s]
  | .vnull => []

/-- Boolean membership in a list of strings. -/
def memStr (x : String) : List String → Bool
  | [] => false
  | y :: ys => if y = x then true else memStr x ys

/-- `dict.fromkeys` dedupe with an accumulator of already-seen entries:
keeps the first occurrence of each string, preserving order. -/
def dedupAcc (seen : List String) : List String → List String
  | [] => []
  | x :: xs => if memStr x seen then dedupAcc seen xs else x :: dedupAcc (x :: seen) xs

/-- `list(dict.fromkeys(xs))`: order-preserving first-occurrence dedupe. -/
def dedup (xs : List String) : List String :=
  dedupAcc [] xs

/-- `core.py` lines 21-31: `LIST_LIKE_FIELDS`, already lower-cased. -/
def LIST_LIKE_FIELDS : List String :=
  ["medications", "prescribed_medications", "diagnoses", "allergies", "conditions", "problems"]

/-- Python dicts (insertion-ordered, unique keys) as association lists. -/
abbrev Dict := List (String × Value)

/-- Dict lookup `m.get(k)` / `m[k]` (first matching key). -/
def dGet : Dict → String → Option Value
  | [], _ => none
  | (k', v) :: rest, k => if k' = k then some v else dGet rest k

/-- Dict assignment `m[k] = v`: replace in place if present, else append. -/
def dSet : Dict → String → Value → Dict
  | [], k, v => [(k, v)]
  | (k', w) :: rest, k, v => if k' = k then (k, v) :: rest else (k', w) :: dSet rest k v

/-- `core.py` lines 286-287: store `v` for a scalar key only when
`v is not None and str(v).strip()`. -/
def setIfKeep (m : Dict) (k : String) (v : Value) : Dict :=
  match v with
  | .vnull => m
  | v' => if pyStrip (pyStr v') = "" then m else dSet m k v'

/-- One iteration of the `for k, v in d.items()` loop of
`SecureRAG._merge_extracted_pages` (`core.py` lines 266-287). -/
def mergePair (m : Dict) (k : String) (v : Value) : Dict :=
  if memStr (pyLower k) LIST_LIKE_FIELDS then
    match dGet m k with
    | none => dSet m k (.vlist (dedup (cleanNew v)))
    | some .vnull => dSet m k (.vlist (dedup (cleanNew v)))
    | some w => dSet m k (.vlist (dedup (listElems w ++ cleanNew v)))
  else
    match dGet m k with
    | some w => if truthy w then m else setIfKeep m k v
    | none => setIfKeep m k v

/-- A raw per-page analyzer result: a mapping, or malformed (not a dict). -/
inductive PageEntry where
  | pmap : Dict → PageEntry
  | pmal : PageEntry
deriving DecidableEq

/-- One iteration of the outer `for d in page_dicts` loop
(`core.py` lines 263-265): non-dicts are skipped. -/
def mergePage (m : Dict) : PageEntry → Dict
  | .pmal => m
  | .pmap d => d.foldl (fun acc kv => mergePair acc kv.1 kv.2) m

/-- `SecureRAG._merge_extracted_pages` (`core.py` lines 258-288). -/
def mergeExtractedPages (pages : List PageEntry) : Dict :=
  pages.foldl mergePage []

/-- The values supplied for key `k` across valid pages, in page order
(absent keys and malformed pages contribute nothing). -/
def pageVals (k : String) (pages : List PageEntry) : List Value :=
  pages.filterMap (fun p =>
    match p with
    | .pmal => none
    | .pmap d => dGet d k)

/-- Keep only the mapping-shaped page entries. -/
def onlyValid (pages : List PageEntry) : List PageEntry :=
  pages.filter (fun p =>
    match p with
    | .pmap _ => true
    | .pmal => false)

/-- Modelled from the spec (for refinement comparison): the list-like merge
as the spec words it — concatenate the coerced per-page values in page
order, trim each string, then drop falsy/empty entries, then dedupe
keeping first occurrences. -/
def specListMerge (pages : List PageEntry) (k : String) : List String :=
  dedup (((((pageVals k pages).map coerceList).flatten).map pyStrip).filter (fun s => s ≠ ""))

/-- The list-like merge as the code computes it, per key: concatenate each
page's `cleanNew` (truthiness filter before trimming), then dedupe. -/
def codeListMerge (pages : List PageEntry) (k : String) : List String :=
  dedup (((pageVals k pages).map cleanNew).flatten)

/-- A scalar-key value is kept when it is non-null and non-blank after
trimming its string form (`core.py` line 286). -/
def scalarKeep (v : Value) : Prop :=
  v ≠ Value.vnull ∧ pyStrip (pyStr v) ≠ ""

instance (v : Value) : Decidable (scalarKeep v) := by
  unfold scalarKeep
  infer_instance

/-- The first non-null value whose string form is non-blank after trimming
(the spec's "first non-empty wins"). -/
def firstNonBlank : List Value → Option Value
  | [] => none
  | v :: vs => if scalarKeep v then some v else firstNonBlank vs

/-- Scalar-shaped values: null or a string (the spec's scalar fields). -/
def isScalarV : Value → Prop
  | .vnull => True
  | .vstr _ => True
  | .vlist _ => False

instance : (v : Value) → Decidable (isScalarV v)
  | .vnull => isTrue trivial
  | .vstr _ => isTrue trivial
  | .vlist _ => isFalse (fun h => h)

/-! ## Loader: type detection (`loader.py` lines 10-56) -/

deriving instance DecidableEq for Except

/-- The three document types `detect_document_type` can return. -/
inductive DocType where
  | pdf : DocType
  | tiff : DocType
  | image : DocType
deriving DecidableEq

/-- File contents are byte lists; `magic` is the 12-byte prefix read by
`_read_magic`. -/
abbrev Bytes := List Nat

/-- `loader.py` line 11: `b"%PDF"`. -/
def PDF_SIGNATURE : Bytes := [0x25, 0x50, 0x44, 0x46]

/-- `loader.py` line 12: the 8-byte PNG signature. -/
def PNG_SIGNATURE : Bytes := [0x89, 0x50, 0x4E, 0x47, 0x0D, 0x0A, 0x1A, 0x0A]

/-- `loader.py` line 13: JPEG start-of-image marker. -/
def JPEG_SIGNATURE : Bytes := [0xFF, 0xD8]

/-- `loader.py` line 14: TIFF little-endian byte-order marker. -/
def TIFF_II : Bytes := [0x49, 0x49, 0x2A, 0x00]

/-- `loader.py` line 15: TIFF big-endian byte-order marker. -/
def TIFF_MM : Bytes := [0x4D, 0x4D, 0x00, 0x2A]

/-- `loader.py` line 16: `b"RIFF"`. -/
def WEBP_SIGNATURE : Bytes := [0x52, 0x49, 0x46, 0x46]

/-- The ASCII bytes of `b"WEBP"`. -/
def WEBP_CHUNK : Bytes := [0x57, 0x45, 0x42, 0x50]

/-- `bytes.startswith`: the first argument is a prefix of the second. -/
def startsWithBytes : Bytes → Bytes → Bool
  | [], _ => true
  | _ :: _, [] => false
  | s :: ss, d :: ds => s = d && startsWithBytes ss ds

/-- `b"WEBP" in magic[:20]`: substring search. -/
def hasSubBytes (pat : Bytes) : Bytes → Bool
  | [] => startsWithBytes pat []
  | d :: ds => startsWithBytes pat (d :: ds) || hasSubBytes pat ds

/-- `loader.py` lines 18-20: the extension fallback sets. -/
def IMAGE_EXTENSIONS : List String := [".png", ".jpg", ".jpeg", ".webp", ".bmp", ".gif"]

/-- `.pdf` extension set. -/
def PDF_EXTENSIONS : List String := [".pdf"]

/-- `.tif`/`.tiff` extension set. -/
def TIFF_EXTENSIONS : List String := [".tif", ".tiff"]

/-- Failure from `detect_document_type`: no recognized signature or
extension (`ValueError: Unsupported document type`). -/
inductive DetectError where
  | unsupported : DetectError
deriving DecidableEq

/-- `detect_document_type` (`loader.py` lines 29-56) on an existing file,
as a function of the magic prefix and the file-name suffix. -/
def detect_document_type (magic : Bytes) (suffix : String) : Except DetectError DocType :=
  if startsWithBytes PDF_SIGNATURE magic || memStr (pyLower suffix) PDF_EXTENSIONS then
    .ok .pdf
  else if startsWithBytes TIFF_II magic || startsWithBytes TIFF_MM magic
      || memStr (pyLower suffix) TIFF_EXTENSIONS then
    .ok .tiff
  else if startsWithBytes PNG_SIGNATURE magic || startsWithBytes JPEG_SIGNATURE magic
      || (startsWithBytes WEBP_SIGNATURE magic && hasSubBytes WEBP_CHUNK (magic.take 20))
      || memStr (pyLower suffix) IMAGE_EXTENSIONS then
    .ok .image
  else
    .error .unsupported

/-- The type named by the content signature alone, per the spec's
magic-byte table (checked in the same order the code checks signatures). -/
def signatureType (magic : Bytes) : Option DocType :=
  if startsWithBytes PDF_SIGNATURE magic then some .pdf
  else if startsWithBytes TIFF_II magic || startsWithBytes TIFF_MM magic then some .tiff
  else if startsWithBytes PNG_SIGNATURE magic || startsWithBytes JPEG_SIGNATURE magic
      || (startsWithBytes WEBP_SIGNATURE magic && hasSubBytes WEBP_CHUNK (magic.take 20)) then some .image
  else none

/-- The type named by the (lower-cased) extension alone, per the spec's
extension-fallback table. -/
def extensionType (suffix : String) : Option DocType :=
  if memStr (pyLower suffix) PDF_EXTENSIONS then some .pdf
  else if memStr (pyLower suffix) TIFF_EXTENSIONS then some .tiff
  else if memStr (pyLower suffix) IMAGE_EXTENSIONS then some .image
  else none

/-- The rank of a type in the code's detection order (pdf, tiff, image). -/
def detectRank : DocType → Nat
  | .pdf => 0
  | .tiff => 1
  | .image => 2

/-- The earlier of two types in the code's detection order. -/
def typeMin (a b : DocType) : DocType :=
  if detectRank a ≤ detectRank b then a else b

/-! ## Loader: page streaming and counting (`loader.py` lines 59-170)

Page payloads produced by the external renderers (PyMuPDF raster for PDF
pages, PIL frames for TIFF) are abstracted as functions `Nat → Bytes` from
the page/frame index; the claims under verification concern indices,
counts and error behavior, not pixel content. -/

/-- A page: zero-based index paired with its encoded payload. -/
abbrev Page := Nat × Bytes

/-- The loader's failure modes relevant to page streaming. -/
inductive LoaderError where
  | emptyDocument : LoaderError
deriving DecidableEq

/-- `count < max_pages` — the negation of the loop-break test
`max_pages is not None and count >= max_pages`. -/
def capOk (mp : Option Nat) (count : Nat) : Bool :=
  match mp with
  | none => true
  | some m => count < m

/-- The PDF loop of `get_pages` (`loader.py` lines 80-87): iterate
`i in range(len(doc))`, breaking once the cap is reached; `rem` is the
number of iterations `range` has left. -/
def pdfLoop (render : Nat → Bytes) (mp : Option Nat) : Nat → Nat → Nat → List Page
  | _, _, 0 => []
  | i, count, rem + 1 =>
    if capOk mp count then (i, render i) :: pdfLoop render mp (i + 1) (count + 1) rem
    else []

/-- `get_pages` on a PDF with `numPages` real pages (`loader.py`
lines 75-89); PDF streaming never raises on its own. -/
def get_pages_pdf (render : Nat → Bytes) (numPages : Nat) (mp : Option Nat) : List Page :=
  pdfLoop render mp 0 0 numPages

/-- The TIFF seek loop of `get_pages` (`loader.py` lines 99-114):
`img.seek(n)` succeeds exactly when `n < numFrames`; on `EOFError` the
loop breaks, and the cap test runs only after a successful seek. -/
def tiffLoop (frame : Nat → Bytes) (numFrames : Nat) (mp : Option Nat) : Nat → Nat → Nat → List Page
  | _, _, 0 => []
  | n, count, fuel + 1 =>
    if numFrames ≤ n then []
    else if capOk mp count then (n, frame n) :: tiffLoop frame numFrames mp (n + 1) (count + 1) fuel
    else []

/-- `get_pages` on a TIFF with `numFrames` readable frames (`loader.py`
lines 91-116): stream the frames, then `if count == 0: raise ValueError`. -/
def get_pages_tiff (frame : Nat → Bytes) (numFrames : Nat) (mp : Option Nat) :
    Except LoaderError (List Page) :=
  if (tiffLoop frame numFrames mp 0 0 (numFrames + 1)).length = 0 then .error .emptyDocument
  else .ok (tiffLoop frame numFrames mp 0 0 (numFrames + 1))

/-- The TIFF counting loop of `get_page_count` (`loader.py` lines 157-168):
seek successive frames until `EOFError`, counting without decoding. -/
def tiffCountLoop (numFrames : Nat) : Nat → Nat → Nat
  | n, 0 => n
  | n, fuel + 1 => if numFrames ≤ n then n else tiffCountLoop numFrames (n + 1) fuel

/-- `get_page_count` on a TIFF with `numFrames` readable frames. -/
def get_page_count_tiff (numFrames : Nat) : Nat :=
  tiffCountLoop numFrames 0 (numFrames + 1)

/-- A decoded raster image: PIL mode string plus abstract pixel data. -/
structure Img where
  mode : String
  pix : Bytes
deriving DecidableEq

/-- `img.convert("RGB")`: the mode becomes `RGB`; the pixel transform is
PIL's and is carried through opaquely. -/
def convertRGB (img : Img) : Img :=
  { mode := "RGB", pix := img.pix }

/-- `loader.py` lines 133-134: palette/alpha modes are converted to RGB. -/
def normalizeMode (img : Img) : Img :=
  if img.mode = "RGBA" ∨ img.mode = "P" then convertRGB img else img

/-- Modelled from the spec: PIL's `Image.save(buf, format="PNG")` is
external to the repository; every PNG stream it writes begins with the
8-byte PNG signature, so the encoder is modelled as that signature
followed by the (opaque) serialized pixels. -/
def pngEncode (img : Img) : Bytes :=
  PNG_SIGNATURE ++ img.pix

/-- The image branch of `get_pages` (`loader.py` lines 118-137), with the
external PIL decoder passed in as `decode`: an empty cap yields nothing;
a `.png` suffix passes the raw file bytes through; anything else is
decoded, mode-normalized and PNG-encoded. -/
def imagePages (decode : Bytes → Img) (suffix : String) (data : Bytes) (mp : Option Nat) :
    List Page :=
  match mp with
  | some 0 => []
  | _ =>
    if pyLower suffix = ".png" then [(0, data)]
    else [(0, pngEncode (normalizeMode (decode data)))]

/-! ## Query-side combination (`core.py` lines 181-226) -/

/-- The answer combiner's failure: no page was ever analyzed
(`core.py` lines 201-202). -/
inductive QueryError where
  | noPages : QueryError
deriving DecidableEq

/-- `core.py` lines 208-212: the labeled non-blank blocks,
`f"--- Page {i + 1} ---\n{a}" for i, a in enumerate(page_answers) if (a and a.strip())`. -/
def answerParts (i : Nat) : List String → List String
  | [] => []
  | a :: rest =>
    if a ≠ "" ∧ pyStrip a ≠ "" then
      ("--- Page " ++ natToStr (i + 1) ++ " ---\n" ++ a) :: answerParts (i + 1) rest
    else
      answerParts (i + 1) rest

/-- The answer-combining block of `SecureRAG.query` (`core.py`
lines 201-213): error on zero pages, verbatim for one page, labeled
blocks joined by a blank line otherwise. -/
def combineAnswers (answers : List String) : Except QueryError String :=
  match answers with
  | [] => .error .noPages
  | [a] => .ok a
  | _ => .ok (joinSep "\n\n" (answerParts 0 answers))

/-- The spec's description of the multi-page blocks, written with explicit
1-based page numbers: non-blank pages keep their label, blank pages are
omitted. -/
def specBlocks (n : Nat) : List String → List String
  | [] => []
  | a :: rest =>
    if pyStrip a = "" then specBlocks (n + 1) rest
    else ("--- Page " ++ natToStr n ++ " ---\n" ++ a) :: specBlocks (n + 1) rest

/-- `core.py` lines 182-195: the running token total — each page's
optional `tokens_used` is added when present. -/
def accTokens (reports : List (Option Nat)) : Nat :=
  reports.foldl (fun acc r =>
    match r with
    | some t => acc + t
    | none => acc) 0

/-- Python `total_tokens or None` (`core.py` line 222). -/
def orNone (n : Nat) : Option Nat :=
  if n = 0 then none else some n

/-- The `tokens_used` field of the `QueryResult` built at `core.py`
lines 218-226. -/
def queryTokensUsed (reports : List (Option Nat)) : Option Nat :=
  orNone (accTokens reports)

/-! ## Basic lemmas: dict operations, membership, dedupe algebra -/

theorem dGet_dSet_self (m : Dict) (k : String) (v : Value) :
    dGet (dSet m k v) k = some v := by
  induction m with
  | nil => simp [dGet, dSet]
  | cons hd tl ih =>
    obtain ⟨k', w⟩ := hd
    by_cases h : k' = k
    · simp [dGet, dSet, h]
    · simp [dGet, dSet, h, ih]

theorem dGet_dSet_ne (m : Dict) (k' k : String) (v : Value) (h : k' ≠ k) :
    dGet (dSet m k' v) k = dGet m k := by
  induction m with
  | nil => simp [dGet, dSet, h]
  | cons hd tl ih =>
    obtain ⟨k'', w⟩ := hd
    by_cases h2 : k'' = k'
    · subst h2
      simp only [dSet, if_pos rfl, dGet, if_neg h]
    · simp only [dSet, if_neg h2, dGet]
      by_cases h3 : k'' = k
      · rw [if_pos h3, if_pos h3]
      · rw [if_neg h3, if_neg h3, ih]

theorem memStr_iff (x : String) (l : List String) : memStr x l = true ↔ x ∈ l := by
  induction l with
  | nil => simp [memStr]
  | cons y ys ih =>
    by_cases h : y = x
    · subst h
      simp [memStr]
    · simp only [memStr, if_neg h, ih, List.mem_cons]
      constructor
      · exact fun hx => Or.inr hx
      · rintro (rfl | hx)
        · exact absurd rfl h
        · exact hx

theorem memStr_append (x : String) (a b : List String) :
    memStr x (a ++ b) = (memStr x a || memStr x b) := by
  induction a with
  | nil => simp [memStr]
  | cons y ys ih =>
    simp only [List.cons_append, List.append_eq, memStr]
    by_cases h : y = x
    · rw [if_pos h, if_pos h]
      rfl
    · rw [if_neg h, if_neg h, ih]

theorem dedupAcc_congr (s1 s2 xs : List String)
    (h : ∀ x, memStr x s1 = memStr x s2) : dedupAcc s1 xs = dedupAcc s2 xs := by
  induction xs generalizing s1 s2 with
  | nil => rfl
  | cons x xs ih =>
    simp only [dedupAcc, h x]
    by_cases hm : memStr x s2 = true
    · rw [if_pos hm, if_pos hm]
      exact ih s1 s2 h
    · rw [if_neg hm, if_neg hm]
      congr 1
      apply ih
      intro y
      simp only [memStr]
      by_cases hy : x = y
      · rw [if_pos hy, if_pos hy]
      · rw [if_neg hy, if_neg hy, h y]

theorem dedupAcc_append (seen a b : List String) :
    dedupAcc seen (a ++ b) = dedupAcc seen a ++ dedupAcc (a ++ seen) b := by
  induction a generalizing seen with
  | nil => rfl
  | cons x a ih =>
    simp only [List.cons_append, List.append_eq, dedupAcc]
    by_cases hm : memStr x seen = true
    · rw [if_pos hm, if_pos hm, ih seen]
      congr 1
      apply dedupAcc_congr
      intro y
      simp only [memStr_append, memStr]
      by_cases hy : x = y
      · subst hy
        simp [hm]
      · rw [if_neg hy]
    · rw [if_neg hm, if_neg hm, ih (x :: seen)]
      simp only [List.cons_append]
      congr 2
      apply dedupAcc_congr
      intro y
      simp only [memStr_append, memStr]
      by_cases hy : x = y
      · subst hy
        simp
      · rw [if_neg hy, if_neg hy]

theorem memStr_dedupAcc (x : String) (seen xs : List String) :
    memStr x (dedupAcc seen xs) = (memStr x xs && !memStr x seen) := by
  induction xs generalizing seen with
  | nil => simp [dedupAcc, memStr]
  | cons y ys ih =>
    simp only [dedupAcc, memStr]
    by_cases hm : memStr y seen = true
    · rw [if_pos hm]
      by_cases hy : y = x
      · subst hy
        simp [ih, hm]
      · simp [hy, ih]
    · rw [if_neg hm]
      by_cases hy : y = x
      · subst hy
        simp [memStr, ih, hm]
      · simp only [memStr, if_neg hy, ih]

theorem dedupAcc_idem (seen xs : List String) :
    dedupAcc seen (dedupAcc seen xs) = dedupAcc seen xs := by
  induction xs generalizing seen with
  | nil => rfl
  | cons x ys ih =>
    simp only [dedupAcc]
    by_cases hm : memStr x seen = true
    · rw [if_pos hm]
      exact ih seen
    · rw [if_neg hm]
      simp only [dedupAcc, memStr, if_pos rfl]
      rw [if_neg hm]
      congr 1
      exact ih (x :: seen)

theorem dedup_append_dedup (a b : List String) :
    dedup (dedup a ++ b) = dedup (a ++ b) := by
  unfold dedup
  rw [dedupAcc_append, dedupAcc_append, dedupAcc_idem]
  congr 1
  apply dedupAcc_congr
  intro x
  rw [memStr_append, memStr_append, memStr_dedupAcc]
  simp [memStr]

/-! ## Lemmas about one merge step -/

theorem setIfKeep_eq (m : Dict) (k : String) (v : Value) :
    setIfKeep m k v = if scalarKeep v then dSet m k v else m := by
  cases v with
  | vnull => simp [setIfKeep, scalarKeep]
  | vstr s =>
    by_cases hb : pyStrip (pyStr (Value.vstr s)) = ""
    · simp [setIfKeep, scalarKeep, hb]
    · simp [setIfKeep, scalarKeep, hb]
  | vlist xs =>
    by_cases hb : pyStrip (pyStr (Value.vlist xs)) = ""
    · simp [setIfKeep, scalarKeep, hb]
    · simp [setIfKeep, scalarKeep, hb]

theorem mergePair_dGet_ne (m : Dict) (k' : String) (v : Value) (k : String) (h : k' ≠ k) :
    dGet (mergePair m k' v) k = dGet m k := by
  unfold mergePair
  by_cases hl : memStr (pyLower k') LIST_LIKE_FIELDS = true
  · rw [if_pos hl]
    cases hm : dGet m k' with
    | none => exact dGet_dSet_ne m k' k _ h
    | some w =>
      cases w with
      | vnull => exact dGet_dSet_ne m k' k _ h
      | vstr s => exact dGet_dSet_ne m k' k _ h
      | vlist xs => exact dGet_dSet_ne m k' k _ h
  · rw [if_neg hl]
    cases hm : dGet m k' with
    | none =>
      rw [setIfKeep_eq]
      by_cases hk : scalarKeep v
      · rw [if_pos hk]
        exact dGet_dSet_ne m k' k _ h
      · rw [if_neg hk]
    | some w =>
      show dGet (if truthy w = true then m else setIfKeep m k' v) k = dGet m k
      by_cases ht : truthy w = true
      · rw [if_pos ht]
      · rw [if_neg ht, setIfKeep_eq]
        by_cases hk : scalarKeep v
        · rw [if_pos hk]
          exact dGet_dSet_ne m k' k _ h
        · rw [if_neg hk]

theorem mergePair_list_none (m : Dict) (k : String) (v : Value)
    (hl : memStr (pyLower k) LIST_LIKE_FIELDS = true) (h : dGet m k = none) :
    mergePair m k v = dSet m k (.vlist (dedup (cleanNew v))) := by
  unfold mergePair
  rw [if_pos hl, h]

theorem mergePair_list_some (m : Dict) (k : String) (v : Value) (xs : List String)
    (hl : memStr (pyLower k) LIST_LIKE_FIELDS = true) (h : dGet m k = some (.vlist xs)) :
    mergePair m k v = dSet m k (.vlist (dedup (xs ++ cleanNew v))) := by
  unfold mergePair
  rw [if_pos hl, h]
  rfl

theorem mergePair_scalar_none (m : Dict) (k : String) (v : Value)
    (hl : memStr (pyLower k) LIST_LIKE_FIELDS = false) (h : dGet m k = none) :
    mergePair m k v = if scalarKeep v then dSet m k v else m := by
  unfold mergePair
  rw [hl, h, setIfKeep_eq]
  simp

theorem mergePair_scalar_locked (m : Dict) (k : String) (v : Value) (w : Value)
    (hl : memStr (pyLower k) LIST_LIKE_FIELDS = false) (h : dGet m k = some w)
    (ht : truthy w = true) :
    mergePair m k v = m := by
  unfold mergePair
  rw [hl, h]
  simp [ht]

theorem mergePair_scalar_unlocked (m : Dict) (k : String) (v : Value) (w : Value)
    (hl : memStr (pyLower k) LIST_LIKE_FIELDS = false) (h : dGet m k = some w)
    (ht : truthy w = false) :
    mergePair m k v = if scalarKeep v then dSet m k v else m := by
  unfold mergePair
  rw [hl, h, setIfKeep_eq]
  simp [ht]

/-! ## Lemmas about merging one page -/

theorem mergePage_nil (m : Dict) : mergePage m (.pmap []) = m := rfl

theorem mergePage_cons (m : Dict) (kv : String × Value) (d : Dict) :
    mergePage m (.pmap (kv :: d)) = mergePage (mergePair m kv.1 kv.2) (.pmap d) := rfl

theorem dGet_eq_none_of_not_mem (d : Dict) (k : String) (h : k ∉ d.map Prod.fst) :
    dGet d k = none := by
  induction d with
  | nil => rfl
  | cons kv rest ih =>
    obtain ⟨k', v⟩ := kv
    simp only [List.map_cons, List.mem_cons] at h
    push_neg at h
    simp only [dGet]
    rw [if_neg (fun hc => h.1 hc.symm)]
    exact ih h.2

theorem dGet_cons_none (k' k : String) (v : Value) (rest : Dict)
    (h : dGet ((k', v) :: rest) k = none) : k' ≠ k ∧ dGet rest k = none := by
  by_cases hc : k' = k
  · simp [dGet, hc] at h
  · simp only [dGet, if_neg hc] at h
    exact ⟨hc, h⟩

theorem mergePage_dGet_none (d : Dict) (k : String) (h : dGet d k = none) :
    ∀ m, dGet (mergePage m (.pmap d)) k = dGet m k := by
  induction d with
  | nil => intro m; rfl
  | cons kv rest ih =>
    obtain ⟨k', v⟩ := kv
    obtain ⟨hne, hrest⟩ := dGet_cons_none k' k v rest h
    intro m
    rw [mergePage_cons, ih hrest, mergePair_dGet_ne m k' v k hne]

theorem mergePage_list_val (d : Dict) (k : String) (v : Value)
    (hl : memStr (pyLower k) LIST_LIKE_FIELDS = true)
    (hnd : (d.map Prod.fst).Nodup)
    (h : dGet d k = some v) :
    (∀ m, dGet m k = none →
        dGet (mergePage m (.pmap d)) k = some (.vlist (dedup (cleanNew v)))) ∧
    (∀ m xs, dGet m k = some (.vlist xs) →
        dGet (mergePage m (.pmap d)) k = some (.vlist (dedup (xs ++ cleanNew v)))) := by
  induction d with
  | nil => simp [dGet] at h
  | cons kv rest ih =>
    obtain ⟨k', w⟩ := kv
    simp only [List.map_cons, List.nodup_cons] at hnd
    by_cases hk : k' = k
    · subst hk
      simp only [dGet, if_pos rfl, if_true, eq_self_iff_true, Option.some.injEq] at h
      subst h
      have hrest : dGet rest k' = none :=
        dGet_eq_none_of_not_mem rest k' hnd.1
      constructor
      · intro m hm
        rw [mergePage_cons]
        rw [mergePage_dGet_none rest k' hrest]
        rw [mergePair_list_none m k' w hl hm]
        exact dGet_dSet_self m k' _
      · intro m xs hm
        rw [mergePage_cons]
        rw [mergePage_dGet_none rest k' hrest]
        rw [mergePair_list_some m k' w xs hl hm]
        exact dGet_dSet_self m k' _
    · simp only [dGet, if_neg hk] at h
      have ihr := ih hnd.2 h
      constructor
      · intro m hm
        rw [mergePage_cons]
        apply ihr.1
        rw [mergePair_dGet_ne m k' w k hk]
        exact hm
      · intro m xs hm
        rw [mergePage_cons]
        apply ihr.2
        rw [mergePair_dGet_ne m k' w k hk]
        exact hm

theorem pageVals_cons_mal (k : String) (rest : List PageEntry) :
    pageVals k (.pmal :: rest) = pageVals k rest := by
  simp [pageVals]

theorem pageVals_cons_map (k : String) (d : Dict) (rest : List PageEntry) :
    pageVals k (.pmap d :: rest) =
      (match dGet d k with
       | none => pageVals k rest
       | some v => v :: pageVals k rest) := by
  cases h : dGet d k <;> simp [pageVals, h]

theorem mergeFold_list (k : String) (hl : memStr (pyLower k) LIST_LIKE_FIELDS = true)
    (pages : List PageEntry) (hnd : ∀ d, PageEntry.pmap d ∈ pages → (d.map Prod.fst).Nodup) :
    (∀ m, dGet m k = none →
       dGet (pages.foldl mergePage m) k =
         (if pageVals k pages = [] then none
          else some (.vlist (dedup (((pageVals k pages).map cleanNew).flatten))))) ∧
    (∀ m xs, dGet m k = some (.vlist (dedup xs)) →
       dGet (pages.foldl mergePage m) k =
         some (.vlist (dedup (xs ++ ((pageVals k pages).map cleanNew).flatten)))) := by
  induction pages with
  | nil =>
    constructor
    · intro m hm
      simpa [pageVals] using hm
    · intro m xs hm
      simpa [pageVals] using hm
  | cons p rest ih =>
    have hnd_rest : ∀ d, PageEntry.pmap d ∈ rest → (d.map Prod.fst).Nodup :=
      fun d hd => hnd d (List.mem_cons_of_mem p hd)
    have ihr := ih hnd_rest
    cases p with
    | pmal =>
      constructor
      · intro m hm
        simpa [pageVals_cons_mal, mergePage] using ihr.1 m hm
      · intro m xs hm
        simpa [pageVals_cons_mal, mergePage] using ihr.2 m xs hm
    | pmap d =>
      have hndd : (d.map Prod.fst).Nodup := hnd d (List.mem_cons_self _ _)
      cases hdk : dGet d k with
      | none =>
        constructor
        · intro m hm
          have step : dGet (mergePage m (.pmap d)) k = dGet m k :=
            mergePage_dGet_none d k hdk m
          have := ihr.1 (mergePage m (.pmap d)) (step.trans hm)
          simpa [pageVals_cons_map, hdk] using this
        · intro m xs hm
          have step : dGet (mergePage m (.pmap d)) k = dGet m k :=
            mergePage_dGet_none d k hdk m
          have := ihr.2 (mergePage m (.pmap d)) xs (step.trans hm)
          simpa [pageVals_cons_map, hdk] using this
      | some v =>
        have hpage := mergePage_list_val d k v hl hndd hdk
        constructor
        · intro m hm
          have step := hpage.1 m hm
          have := ihr.2 (mergePage m (.pmap d)) (cleanNew v) step
          rw [List.foldl_cons]
          rw [this]
          simp [pageVals_cons_map, hdk]
        · intro m xs hm
          have step := hpage.2 m (dedup xs) hm
          rw [dedup_append_dedup] at step
          have := ihr.2 (mergePage m (.pmap d)) (xs ++ cleanNew v) step
          rw [List.foldl_cons]
          rw [this]
          simp [pageVals_cons_map, hdk, List.append_assoc]

/-! ## Claim C1 — list-like merge -/

/-- C1 counterexample: the claim orders the per-entry cleanup as
"trim each string, then drop falsy/empty entries", but the code drops
falsy entries before trimming, so a whitespace-only entry survives as an
empty string.  On the single page `{"medications": [" "]}` the code
produces `[""]` while the claim's merge produces `[]`. -/
theorem list_merge_strip_order_cex :
    dGet (mergeExtractedPages [.pmap [("medications", .vlist [" "])]]) "medications"
      = some (.vlist [""]) ∧
    specListMerge [.pmap [("medications", .vlist [" "])]] "medications" = [] ∧
    dGet (mergeExtractedPages [.pmap [("medications", .vlist [" "])]]) "medications"
      ≠ some (.vlist (specListMerge [.pmap [("medications", .vlist [" "])]] "medications")) := by
  refine ⟨by decide, by decide, by decide⟩

/-- C1 (amended): for every list of per-page field mappings (each with
duplicate-free keys, as Python dicts are) and every key whose lower-cased
name is in the list-like taxonomy, the merged value for that key is the
page-order concatenation of each page's value — coercing a bare scalar to
a one-element sequence and treating null/empty as contributing nothing —
with falsy/empty entries dropped and the remaining entries trimmed (in
that order, so whitespace-only entries are retained as empty strings),
and duplicates removed preserving first-occurrence order across the whole
concatenation; the key is absent only when no page mentions it. -/
theorem list_merge_concat_dedupe (pages : List PageEntry) (k : String)
    (hnd : ∀ d, PageEntry.pmap d ∈ pages → (d.map Prod.fst).Nodup)
    (hl : memStr (pyLower k) LIST_LIKE_FIELDS = true) :
    dGet (mergeExtractedPages pages) k =
      if pageVals k pages = [] then none
      else some (.vlist (codeListMerge pages k)) := by
  have h := (mergeFold_list k hl pages hnd).1 [] rfl
  unfold mergeExtractedPages codeListMerge
  exact h

/-- C1 witness: the spec's own example — two pages of medications merge
by concatenation with cross-page dedupe, preserving first occurrences. -/
theorem list_merge_concat_dedupe_witness :
    dGet (mergeExtractedPages
        [.pmap [("medications", .vlist ["Aspirin", "Lisinopril"])],
         .pmap [("medications", .vlist ["Aspirin", "Metformin"])]]) "medications"
      = some (.vlist ["Aspirin", "Lisinopril", "Metformin"]) := by
  have h := list_merge_concat_dedupe
      [.pmap [("medications", .vlist ["Aspirin", "Lisinopril"])],
       .pmap [("medications", .vlist ["Aspirin", "Metformin"])]] "medications"
      (by
        intro d hd
        simp only [List.mem_cons, List.not_mem_nil, or_false] at hd
        rcases hd with h | h
        · injection h with h2
          subst h2
          decide
        · injection h with h2
          subst h2
          decide)
      (by decide)
  rw [h]
  decide

/-! ## Claim C2 — scalar merge -/

theorem scalar_keep_truthy (v : Value) (hsc : isScalarV v) (hk : scalarKeep v) :
    truthy v = true := by
  cases v with
  | vnull => exact absurd rfl hk.1
  | vstr s =>
    have hne : s ≠ "" := by
      intro hc
      subst hc
      exact hk.2 rfl
    simp [truthy, hne]
  | vlist xs => exact absurd hsc (fun h => h)

theorem mergePage_scalar_val (d : Dict) (k : String) (v : Value)
    (hs : memStr (pyLower k) LIST_LIKE_FIELDS = false)
    (hnd : (d.map Prod.fst).Nodup)
    (h : dGet d k = some v) :
    (∀ m, dGet m k = none →
        dGet (mergePage m (.pmap d)) k = if scalarKeep v then some v else none) ∧
    (∀ m w, dGet m k = some w → truthy w = true →
        dGet (mergePage m (.pmap d)) k = some w) := by
  induction d with
  | nil => simp [dGet] at h
  | cons kv rest ih =>
    obtain ⟨k', w⟩ := kv
    simp only [List.map_cons, List.nodup_cons] at hnd
    by_cases hk : k' = k
    · subst hk
      simp only [dGet, if_pos rfl, if_true, eq_self_iff_true, Option.some.injEq] at h
      subst h
      have hrest : dGet rest k' = none :=
        dGet_eq_none_of_not_mem rest k' hnd.1
      constructor
      · intro m hm
        rw [mergePage_cons, mergePage_dGet_none rest k' hrest]
        rw [mergePair_scalar_none m k' w hs hm]
        by_cases hkv : scalarKeep w
        · rw [if_pos hkv, if_pos hkv]
          exact dGet_dSet_self m k' _
        · rw [if_neg hkv, if_neg hkv]
          exact hm
      · intro m w0 hm ht
        rw [mergePage_cons, mergePage_dGet_none rest k' hrest]
        rw [mergePair_scalar_locked m k' w w0 hs hm ht]
        exact hm
    · simp only [dGet, if_neg hk] at h
      have ihr := ih hnd.2 h
      constructor
      · intro m hm
        rw [mergePage_cons]
        apply ihr.1
        rw [mergePair_dGet_ne m k' w k hk]
        exact hm
      · intro m w0 hm ht
        rw [mergePage_cons]
        apply ihr.2 _ w0 _ ht
        rw [mergePair_dGet_ne m k' w k hk]
        exact hm

theorem mergeFold_scalar (k : String) (hs : memStr (pyLower k) LIST_LIKE_FIELDS = false)
    (pages : List PageEntry) (hnd : ∀ d, PageEntry.pmap d ∈ pages → (d.map Prod.fst).Nodup)
    (hscalar : ∀ v ∈ pageVals k pages, isScalarV v) :
    (∀ m, dGet m k = none →
        dGet (pages.foldl mergePage m) k = firstNonBlank (pageVals k pages)) ∧
    (∀ m w, dGet m k = some w → truthy w = true →
        dGet (pages.foldl mergePage m) k = some w) := by
  induction pages with
  | nil =>
    constructor
    · intro m hm
      simpa [pageVals, firstNonBlank] using hm
    · intro m w hm _
      simpa using hm
  | cons p rest ih =>
    have hnd_rest : ∀ d, PageEntry.pmap d ∈ rest → (d.map Prod.fst).Nodup :=
      fun d hd => hnd d (List.mem_cons_of_mem p hd)
    cases p with
    | pmal =>
      have ihr := ih hnd_rest (by simpa [pageVals_cons_mal] using hscalar)
      constructor
      · intro m hm
        simpa [pageVals_cons_mal, mergePage] using ihr.1 m hm
      · intro m w hm ht
        simpa [mergePage] using ihr.2 m w hm ht
    | pmap d =>
      have hndd : (d.map Prod.fst).Nodup := hnd d (List.mem_cons_self _ _)
      cases hdk : dGet d k with
      | none =>
        have hvals : pageVals k (.pmap d :: rest) = pageVals k rest := by
          simp [pageVals_cons_map, hdk]
        have ihr := ih hnd_rest (by
          intro v hv
          exact hscalar v (by rw [hvals]; exact hv))
        constructor
        · intro m hm
          have step : dGet (mergePage m (.pmap d)) k = dGet m k :=
            mergePage_dGet_none d k hdk m
          have := ihr.1 (mergePage m (.pmap d)) (step.trans hm)
          rw [List.foldl_cons, this, hvals]
        · intro m w hm ht
          have step : dGet (mergePage m (.pmap d)) k = dGet m k :=
            mergePage_dGet_none d k hdk m
          have := ihr.2 (mergePage m (.pmap d)) w (step.trans hm) ht
          rw [List.foldl_cons, this]
      | some v =>
        have hvals : pageVals k (.pmap d :: rest) = v :: pageVals k rest := by
          simp [pageVals_cons_map, hdk]
        have hv_sc : isScalarV v := hscalar v (by rw [hvals]; exact List.mem_cons_self _ _)
        have ihr := ih hnd_rest (by
          intro u hu
          exact hscalar u (by rw [hvals]; exact List.mem_cons_of_mem v hu))
        have hpage := mergePage_scalar_val d k v hs hndd hdk
        constructor
        · intro m hm
          have step := hpage.1 m hm
          by_cases hkv : scalarKeep v
          · rw [if_pos hkv] at step
            have := ihr.2 (mergePage m (.pmap d)) v step (scalar_keep_truthy v hv_sc hkv)
            rw [List.foldl_cons, this, hvals]
            simp [firstNonBlank, hkv]
          · rw [if_neg hkv] at step
            have := ihr.1 (mergePage m (.pmap d)) step
            rw [List.foldl_cons, this, hvals]
            simp [firstNonBlank, hkv]
        · intro m w hm ht
          have step := hpage.2 m w hm ht
          have := ihr.2 (mergePage m (.pmap d)) w step ht
          rw [List.foldl_cons, this]

/-- C2: for every list of per-page field mappings (duplicate-free keys per
page) and every scalar-like key (not in the list-like taxonomy) whose
page values are scalars (null or string, per the data model), the merged
value is the first non-null value in page order whose string form is
non-blank after trimming; later pages never override it once set; and
when no page supplies such a value the key is absent from the merged
result. -/
theorem scalar_merge_first_non_empty (pages : List PageEntry) (k : String)
    (hnd : ∀ d, PageEntry.pmap d ∈ pages → (d.map Prod.fst).Nodup)
    (hs : memStr (pyLower k) LIST_LIKE_FIELDS = false)
    (hscalar : ∀ v ∈ pageVals k pages, isScalarV v) :
    dGet (mergeExtractedPages pages) k = firstNonBlank (pageVals k pages) :=
  (mergeFold_scalar k hs pages hnd hscalar).1 [] rfl

/-- C2 witness: the spec's three-page test — a blank first page is
skipped, page 2's value wins, page 3's different non-empty value never
overrides it. -/
theorem scalar_merge_first_non_empty_witness :
    dGet (mergeExtractedPages
        [.pmap [("name", .vstr "")],
         .pmap [("name", .vstr "Jane")],
         .pmap [("name", .vstr "Bob")]]) "name" = some (.vstr "Jane") := by
  have h := scalar_merge_first_non_empty
      [.pmap [("name", .vstr "")],
       .pmap [("name", .vstr "Jane")],
       .pmap [("name", .vstr "Bob")]] "name"
      (by
        intro d hd
        simp only [List.mem_cons, List.not_mem_nil, or_false] at hd
        rcases hd with h | h | h <;> (injection h with h2; subst h2; decide))
      (by decide)
      (by decide)
  rw [h]
  decide

/-! ## Claim C9 — merged key set -/

theorem mergePair_isSome_iff (m : Dict) (k' : String) (v : Value) (k : String) :
    (dGet (mergePair m k' v) k).isSome = true ↔
      ((dGet m k).isSome = true ∨
        (k' = k ∧ (memStr (pyLower k) LIST_LIKE_FIELDS = true ∨ scalarKeep v))) := by
  by_cases hk : k' = k
  · subst hk
    by_cases hl : memStr (pyLower k') LIST_LIKE_FIELDS = true
    · have hset : (dGet (mergePair m k' v) k').isSome = true := by
        unfold mergePair
        rw [if_pos hl]
        cases hm : dGet m k' with
        | none => rw [dGet_dSet_self]; rfl
        | some w =>
          cases w with
          | vnull => rw [dGet_dSet_self]; rfl
          | vstr s => rw [dGet_dSet_self]; rfl
          | vlist xs => rw [dGet_dSet_self]; rfl
      simp [hset, hl]
    · have hl2 : memStr (pyLower k') LIST_LIKE_FIELDS = false :=
        Bool.not_eq_true _ ▸ by simpa using hl
      cases hm : dGet m k' with
      | none =>
        rw [mergePair_scalar_none m k' v hl2 hm]
        by_cases hkv : scalarKeep v
        · rw [if_pos hkv, dGet_dSet_self]
          simp [hm, hkv]
        · rw [if_neg hkv, hm]
          simp [hm, hl, hkv]
      | some w =>
        by_cases ht : truthy w = true
        · rw [mergePair_scalar_locked m k' v w hl2 hm ht, hm]
          simp
        · rw [mergePair_scalar_unlocked m k' v w hl2 hm (by simpa using ht)]
          by_cases hkv : scalarKeep v
          · rw [if_pos hkv, dGet_dSet_self]
            simp [hm]
          · rw [if_neg hkv, hm]
            simp
  · rw [mergePair_dGet_ne m k' v k hk]
    simp [hk]

theorem mergePage_isSome_iff (d : Dict) (k : String) (m : Dict) :
    (dGet (mergePage m (.pmap d)) k).isSome = true ↔
      ((dGet m k).isSome = true ∨
        ∃ v, (k, v) ∈ d ∧
          (memStr (pyLower k) LIST_LIKE_FIELDS = true ∨ scalarKeep v)) := by
  induction d generalizing m with
  | nil => simp [mergePage_nil]
  | cons kv rest ih =>
    obtain ⟨k', w⟩ := kv
    rw [mergePage_cons]
    rw [ih]
    rw [mergePair_isSome_iff]
    constructor
    · rintro ((h | ⟨rfl, hc⟩) | ⟨v, hv, hc⟩)
      · exact Or.inl h
      · exact Or.inr ⟨w, List.mem_cons_self _ _, hc⟩
      · exact Or.inr ⟨v, List.mem_cons_of_mem _ hv, hc⟩
    · rintro (h | ⟨v, hv, hc⟩)
      · exact Or.inl (Or.inl h)
      · rcases List.mem_cons.mp hv with he | hm2
        · injection he with h1 h2
          subst h1
          subst h2
          exact Or.inl (Or.inr ⟨rfl, hc⟩)
        · exact Or.inr ⟨v, hm2, hc⟩

theorem mergeFold_isSome (pages : List PageEntry) (k : String) :
    ∀ m, (dGet (pages.foldl mergePage m) k).isSome = true ↔
      ((dGet m k).isSome = true ∨
        ∃ d, PageEntry.pmap d ∈ pages ∧ ∃ v, (k, v) ∈ d ∧
          (memStr (pyLower k) LIST_LIKE_FIELDS = true ∨ scalarKeep v)) := by
  induction pages with
  | nil => simp
  | cons p rest ih =>
    intro m
    rw [List.foldl_cons, ih]
    cases p with
    | pmal =>
      show ((dGet m k).isSome = true ∨ _) ↔ _
      constructor
      · rintro (h | ⟨d, hd, hrest⟩)
        · exact Or.inl h
        · exact Or.inr ⟨d, List.mem_cons_of_mem _ hd, hrest⟩
      · rintro (h | ⟨d, hd, hrest⟩)
        · exact Or.inl h
        · rcases List.mem_cons.mp hd with he | hm2
          · exact absurd he (by simp)
          · exact Or.inr ⟨d, hm2, hrest⟩
    | pmap d0 =>
      rw [mergePage_isSome_iff]
      constructor
      · rintro ((h | ⟨v, hv, hc⟩) | ⟨d, hd, hrest⟩)
        · exact Or.inl h
        · exact Or.inr ⟨d0, List.mem_cons_self _ _, v, hv, hc⟩
        · exact Or.inr ⟨d, List.mem_cons_of_mem _ hd, hrest⟩
      · rintro (h | ⟨d, hd, hrest⟩)
        · exact Or.inl (Or.inl h)
        · rcases List.mem_cons.mp hd with he | hm2
          · injection he with h1
            subst h1
            exact Or.inl (Or.inr hrest)
          · exact Or.inr ⟨d, hm2, hrest⟩

/-- C9 counterexample: the page `{"name": ""}` mentions the key `name`,
yet the merged mapping is empty — the merged key set is not the union of
the keys seen across pages. -/
theorem merged_keys_union_cex :
    dGet [("name", Value.vstr "")] "name" = some (.vstr "") ∧
    mergeExtractedPages [.pmap [("name", .vstr "")]] = [] ∧
    dGet (mergeExtractedPages [.pmap [("name", .vstr "")]]) "name" = none := by
  exact ⟨by decide, by decide, by decide⟩

/-- C9 (amended): a key is present in the merged mapping exactly when some
valid (mapping-shaped) page has an entry for it that the merge keeps:
any entry at all when the lower-cased key is in the list-like taxonomy,
and a non-null entry whose string form is non-blank after trimming
otherwise.  The merged key set is therefore a subset of the union of keys
seen across valid pages, proper when a scalar-like key only ever carries
null or blank values. -/
theorem merged_key_presence (pages : List PageEntry) (k : String) :
    (dGet (mergeExtractedPages pages) k).isSome = true ↔
      ∃ d, PageEntry.pmap d ∈ pages ∧ ∃ v, (k, v) ∈ d ∧
        (memStr (pyLower k) LIST_LIKE_FIELDS = true ∨ scalarKeep v) := by
  have h := mergeFold_isSome pages k []
  simpa [mergeExtractedPages, dGet] using h

/-! ## Claim C7 — malformed pages are skipped; empty input merges to empty -/

/-- C7: merging ignores exactly the non-mapping page entries — the merge
of any page list equals the merge of its mapping-shaped sublist (so
malformed entries never fail and never block later pages) — and merging
the empty list yields the empty mapping, not an error. -/
theorem merge_skips_malformed :
    (∀ pages, mergeExtractedPages pages = mergeExtractedPages (onlyValid pages)) ∧
    mergeExtractedPages [] = [] := by
  constructor
  · have gen : ∀ pages (m : Dict),
        pages.foldl mergePage m = (onlyValid pages).foldl mergePage m := by
      intro pages
      induction pages with
      | nil => intro m; rfl
      | cons p rest ih =>
        intro m
        cases p with
        | pmal => simpa [onlyValid, List.filter_cons, mergePage] using ih m
        | pmap d =>
          simp only [onlyValid, List.filter_cons] at *
          simpa using ih (mergePage m (.pmap d))
    exact fun pages => gen pages []
  · rfl

/-! ## Claim C3 — detection priority -/

/-- C3 counterexample: a file whose content bears the PNG signature but
whose name ends in `.pdf` classifies as Pdf — the extension, not the
recognized content signature, decides, because the pdf stage tests
"signature OR extension" before any later stage runs. -/
theorem detect_extension_beats_signature_cex :
    signatureType PNG_SIGNATURE = some .image ∧
    detect_document_type PNG_SIGNATURE ".pdf" = .ok .pdf ∧
    detect_document_type PNG_SIGNATURE ".pdf" ≠ .ok .image := by
  exact ⟨by decide, by decide, by decide⟩

/-- C3 (amended): detection proceeds through the fixed stages pdf, tiff,
image, each stage matching its signature OR its extension set; hence a
PDF content signature always wins (in particular PDF magic with a `.png`
extension classifies as Pdf), and in general, when both a signature and a
(conflicting) extension are recognized, the result is whichever type
comes earlier in that stage order — so a recognized signature loses to an
extension of an earlier-stage type. -/
theorem detect_priority_order :
    (∀ magic suffix, startsWithBytes PDF_SIGNATURE magic = true →
        detect_document_type magic suffix = .ok .pdf) ∧
    (∀ magic suffix s e, signatureType magic = some s →
        extensionType suffix = some e →
        detect_document_type magic suffix = .ok (typeMin s e)) := by
  constructor
  · intro magic suffix h
    simp [detect_document_type, h]
  · intro magic suffix s e hs he
    unfold signatureType at hs
    unfold extensionType at he
    unfold detect_document_type
    split_ifs at hs with h1 h2 h3 <;> split_ifs at he with e1 e2 e3 <;>
      first
      | exact Option.noConfusion hs
      | exact Option.noConfusion he
      | (injection hs with hs2
         injection he with he2
         subst hs2
         subst he2
         simp_all [typeMin, detectRank])

/-- C3 witness: the claim's own instance — PDF magic bytes with a `.png`
extension classify as Pdf — and a signature/extension conflict resolving
to the earlier stage (TIFF magic with `.png` extension gives Tiff). -/
theorem detect_priority_order_witness :
    detect_document_type PDF_SIGNATURE ".png" = .ok .pdf ∧
    detect_document_type TIFF_II ".png" = .ok (typeMin .tiff .image) := by
  constructor
  · exact detect_priority_order.1 PDF_SIGNATURE ".png" (by decide)
  · exact detect_priority_order.2 TIFF_II ".png" .tiff .image (by decide) (by decide)

/-! ## Claims C4 and C8 — page streaming and counting -/

theorem pdfLoop_succ (render : Nat → Bytes) (mp : Option Nat) (i count rem : Nat) :
    pdfLoop render mp i count (rem + 1) =
      if capOk mp count then (i, render i) :: pdfLoop render mp (i + 1) (count + 1) rem
      else [] := rfl

theorem tiffLoop_succ (frame : Nat → Bytes) (N : Nat) (mp : Option Nat) (n count fuel : Nat) :
    tiffLoop frame N mp n count (fuel + 1) =
      if N ≤ n then []
      else if capOk mp count then
        (n, frame n) :: tiffLoop frame N mp (n + 1) (count + 1) fuel
      else [] := rfl

theorem pdfLoop_none_eq (render : Nat → Bytes) :
    ∀ rem i count, pdfLoop render none i count rem
      = (List.range' i rem).map (fun n => (n, render n)) := by
  intro rem
  induction rem with
  | zero => intro i count; rfl
  | succ rem ih =>
    intro i count
    rw [pdfLoop_succ, if_pos (show capOk none count = true from rfl)]
    show (i, render i) :: pdfLoop render none (i + 1) (count + 1) rem
      = (i :: List.range' (i + 1) rem).map (fun n => (n, render n))
    rw [List.map_cons, ih (i + 1) (count + 1)]

theorem pdfLoop_some_eq (render : Nat → Bytes) (m : Nat) :
    ∀ rem i count, pdfLoop render (some m) i count rem
      = (List.range' i (min rem (m - count))).map (fun n => (n, render n)) := by
  intro rem
  induction rem with
  | zero => intro i count; simp [pdfLoop]
  | succ rem ih =>
    intro i count
    by_cases hc : count < m
    · have hcap : capOk (some m) count = true := by simp [capOk, hc]
      rw [pdfLoop_succ, if_pos hcap, ih (i + 1) (count + 1)]
      have h2 : m - count = (m - (count + 1)) + 1 := by omega
      rw [h2, Nat.succ_min_succ]
      show (i, render i) :: (List.range' (i + 1) (min rem (m - (count + 1)))).map (fun n => (n, render n))
        = (i :: List.range' (i + 1) (min rem (m - (count + 1)))).map (fun n => (n, render n))
      rw [List.map_cons]
    · have hcap : capOk (some m) count = false := by simp [capOk, hc]
      rw [pdfLoop_succ, if_neg (by simp [hcap])]
      have h0 : m - count = 0 := by omega
      simp [h0]

theorem tiffLoop_some_eq (frame : Nat → Bytes) (N m : Nat) :
    ∀ fuel n count, N ≤ n + fuel →
      tiffLoop frame N (some m) n count fuel
        = (List.range' n (min (N - n) (m - count))).map (fun j => (j, frame j)) := by
  intro fuel
  induction fuel with
  | zero =>
    intro n count hN
    have h0 : N - n = 0 := by omega
    simp [tiffLoop, h0]
  | succ fuel ih =>
    intro n count hN
    rw [tiffLoop_succ]
    by_cases hn : N ≤ n
    · rw [if_pos hn]
      have h0 : N - n = 0 := by omega
      simp [h0]
    · rw [if_neg hn]
      by_cases hc : count < m
      · have hcap : capOk (some m) count = true := by simp [capOk, hc]
        rw [if_pos hcap, ih (n + 1) (count + 1) (by omega)]
        have h1 : N - n = (N - (n + 1)) + 1 := by omega
        have h2 : m - count = (m - (count + 1)) + 1 := by omega
        rw [h1, h2, Nat.succ_min_succ]
        show (n, frame n) :: (List.range' (n + 1) (min (N - (n + 1)) (m - (count + 1)))).map (fun j => (j, frame j))
          = (n :: List.range' (n + 1) (min (N - (n + 1)) (m - (count + 1)))).map (fun j => (j, frame j))
        rw [List.map_cons]
      · have hcap : capOk (some m) count = false := by simp [capOk, hc]
        rw [if_neg (by simp [hcap])]
        have h0 : m - count = 0 := by omega
        simp [h0]

theorem tiffLoop_none_eq (frame : Nat → Bytes) (N : Nat) :
    ∀ fuel n count, N ≤ n + fuel →
      tiffLoop frame N none n count fuel
        = (List.range' n (N - n)).map (fun j => (j, frame j)) := by
  intro fuel
  induction fuel with
  | zero =>
    intro n count hN
    have h0 : N - n = 0 := by omega
    simp [tiffLoop, h0]
  | succ fuel ih =>
    intro n count hN
    rw [tiffLoop_succ]
    by_cases hn : N ≤ n
    · rw [if_pos hn]
      have h0 : N - n = 0 := by omega
      simp [h0]
    · rw [if_neg hn, if_pos (show capOk none count = true from rfl),
        ih (n + 1) (count + 1) (by omega)]
      have h1 : N - n = (N - (n + 1)) + 1 := by omega
      rw [h1]
      show (n, frame n) :: (List.range' (n + 1) (N - (n + 1))).map (fun j => (j, frame j))
        = (n :: List.range' (n + 1) (N - (n + 1))).map (fun j => (j, frame j))
      rw [List.map_cons]

theorem tiffCountLoop_eq (N : Nat) :
    ∀ fuel n, n ≤ N → N ≤ n + fuel → tiffCountLoop N n fuel = N := by
  intro fuel
  induction fuel with
  | zero =>
    intro n h1 h2
    show n = N
    omega
  | succ fuel ih =>
    intro n h1 h2
    show (if N ≤ n then n else tiffCountLoop N (n + 1) fuel) = N
    by_cases hn : N ≤ n
    · rw [if_pos hn]
      omega
    · rw [if_neg hn]
      exact ih (n + 1) (by omega) (by omega)

/-- C4 counterexample: a TIFF with 1 real frame streamed with
`max_pages = 0` does not yield an empty sequence — the loop breaks with
zero frames emitted, and the zero-page guard then raises the
EmptyDocument failure (`loader.py` lines 105, 115-116). -/
theorem tiff_zero_cap_cex :
    get_pages_tiff (fun _ => ([] : Bytes)) 1 (some 0) = .error .emptyDocument ∧
    get_pages_tiff (fun _ => ([] : Bytes)) 1 (some 0) ≠ .ok [] := by
  exact ⟨by decide, by decide⟩

/-- C4 (amended): for Pdf documents with N real pages, streaming with cap
k yields exactly min(k, N) pages in increasing index order from 0 (k = 0
gives the empty sequence without error), and without a cap all N pages;
tiff page counting returns N; for Tiff documents the same min(k, N)
sequence is produced provided min(k, N) ≥ 1 — when min(k, N) = 0 (zero
frames, or a zero cap) the stream instead fails with EmptyDocument. -/
theorem pages_count_min_cap (render frame : Nat → Bytes) (N k : Nat) :
    get_pages_pdf render N (some k) = (List.range (min k N)).map (fun i => (i, render i)) ∧
    get_pages_pdf render N none = (List.range N).map (fun i => (i, render i)) ∧
    get_page_count_tiff N = N ∧
    (1 ≤ min k N →
      get_pages_tiff frame N (some k)
        = .ok ((List.range (min k N)).map (fun i => (i, frame i)))) ∧
    (1 ≤ N →
      get_pages_tiff frame N none
        = .ok ((List.range N).map (fun i => (i, frame i)))) := by
  refine ⟨?_, ?_, ?_, ?_, ?_⟩
  · unfold get_pages_pdf
    rw [pdfLoop_some_eq render k N 0 0, Nat.sub_zero, Nat.min_comm N k, List.range_eq_range']
  · unfold get_pages_pdf
    rw [pdfLoop_none_eq render N 0 0, List.range_eq_range']
  · exact tiffCountLoop_eq N (N + 1) 0 (by omega) (by omega)
  · intro h
    unfold get_pages_tiff
    rw [tiffLoop_some_eq frame N k (N + 1) 0 0 (by omega), Nat.sub_zero, Nat.sub_zero,
      Nat.min_comm N k]
    rw [if_neg (by
      simp only [List.length_map, List.length_range']
      omega)]
    rw [List.range_eq_range']
  · intro h
    unfold get_pages_tiff
    rw [tiffLoop_none_eq frame N (N + 1) 0 0 (by omega), Nat.sub_zero]
    rw [if_neg (by
      simp only [List.length_map, List.length_range']
      omega)]
    rw [List.range_eq_range']

/-- C4 witness: a 2-page document capped at 1 page yields exactly page 0
for both Pdf and Tiff, and a 3-frame TIFF counts 3 pages. -/
theorem pages_count_min_cap_witness :
    get_pages_pdf (fun n => [n]) 2 (some 1) = [(0, [0])] ∧
    get_pages_tiff (fun n => [n]) 2 (some 1) = .ok [(0, [0])] ∧
    get_page_count_tiff 3 = 3 := by
  have h := pages_count_min_cap (fun n => [n]) (fun n => [n]) 2 1
  have h3 := pages_count_min_cap (fun n => [n]) (fun n => [n]) 3 1
  refine ⟨?_, ?_, ?_⟩
  · rw [h.1]
    decide
  · rw [h.2.2.2.1 (by decide)]
    decide
  · exact h3.2.2.1

/-- C8: a file classified as Tiff with zero readable frames fails with
EmptyDocument in the page stream, for every page cap, rather than
yielding an empty sequence. -/
theorem tiff_empty_document_error (frame : Nat → Bytes) (mp : Option Nat) :
    get_pages_tiff frame 0 mp = .error .emptyDocument := by
  unfold get_pages_tiff
  rw [tiffLoop_succ, if_pos (Nat.le_refl 0)]
  rfl

/-! ## Claim C6 — image branch -/

theorem startsWithBytes_append_self (sig rest : Bytes) :
    startsWithBytes sig (sig ++ rest) = true := by
  induction sig with
  | nil => rfl
  | cons b bs ih => simp [startsWithBytes, ih]

/-- C6 counterexample: a file whose content is JPEG (starts `FF D8`) but
whose name ends in `.png` is emitted by the image branch with its raw
bytes unchanged — the pass-through test is the file extension, not the
actual encoding — so the emitted payload is not in the canonical PNG
encoding. -/
theorem image_pass_through_cex :
    detect_document_type [0xFF, 0xD8, 0x00] ".png" = .ok .image ∧
    imagePages (fun _ => Img.mk "RGB" []) ".png" [0xFF, 0xD8, 0x00] none
      = [(0, [0xFF, 0xD8, 0x00])] ∧
    startsWithBytes PNG_SIGNATURE [0xFF, 0xD8, 0x00] = false := by
  exact ⟨by decide, by decide, by decide⟩

/-- C6 (amended): for Image-type documents with a non-zero page cap the
stream yields exactly one page, index 0.  Whether the bytes pass through
unchanged is decided by the file extension, not the content: a `.png`
suffix passes the raw file bytes through (even if they are not
PNG-encoded), and any other suffix is decoded, mode-normalized and
re-encoded, producing a payload that begins with the PNG signature. -/
theorem image_single_page_policy (decode : Bytes → Img) (suffix : String) (data : Bytes)
    (mp : Option Nat) (h : mp ≠ some 0) :
    (pyLower suffix = ".png" → imagePages decode suffix data mp = [(0, data)]) ∧
    (pyLower suffix ≠ ".png" →
      imagePages decode suffix data mp = [(0, pngEncode (normalizeMode (decode data)))] ∧
      startsWithBytes PNG_SIGNATURE (pngEncode (normalizeMode (decode data))) = true) := by
  have hred : imagePages decode suffix data mp =
      (if pyLower suffix = ".png" then [(0, data)]
       else [(0, pngEncode (normalizeMode (decode data)))]) := by
    cases mp with
    | none => rfl
    | some n =>
      cases n with
      | zero => exact absurd rfl h
      | succ n => rfl
  constructor
  · intro hp
    rw [hred, if_pos hp]
  · intro hp
    refine ⟨by rw [hred, if_neg hp], ?_⟩
    unfold pngEncode
    exact startsWithBytes_append_self PNG_SIGNATURE _

/-- C6 witness: a `.png`-named file passes through; a `.jpg`-named file
with a palette mode is normalized and re-encoded with a PNG-signature
payload. -/
theorem image_single_page_policy_witness :
    imagePages (fun _ => Img.mk "P" [7]) ".png" [1] none = [(0, [1])] ∧
    imagePages (fun _ => Img.mk "P" [7]) ".jpg" [1] none
      = [(0, PNG_SIGNATURE ++ [7])] := by
  constructor
  · exact (image_single_page_policy (fun _ => Img.mk "P" [7]) ".png" [1] none
      (by simp)).1 (by decide)
  · have h := (image_single_page_policy (fun _ => Img.mk "P" [7]) ".jpg" [1] none
      (by simp)).2 (by decide)
    rw [h.1]
    decide

/-! ## Claim C5 — answer combiner -/

theorem answerParts_eq_specBlocks (xs : List String) :
    ∀ i, answerParts i xs = specBlocks (i + 1) xs := by
  induction xs with
  | nil => intro i; rfl
  | cons a rest ih =>
    intro i
    by_cases hb : pyStrip a = ""
    · have hcond : ¬(a ≠ "" ∧ pyStrip a ≠ "") := fun hc => hc.2 hb
      simp only [answerParts, specBlocks, if_neg hcond, if_pos hb]
      exact ih (i + 1)
    · have hne : a ≠ "" := by
        intro hc
        subst hc
        exact hb rfl
      simp only [answerParts, specBlocks, if_pos (And.intro hne hb), if_neg hb]
      rw [ih (i + 1)]

/-- C5: the answer combiner fails with the no-pages error on an empty
answer list; returns a single page's text verbatim; and for two or more
pages returns the non-blank pages' texts, each prefixed with its 1-based
"--- Page N ---" label, joined with a blank line, blank pages omitted
entirely. -/
theorem combine_answers_policy :
    combineAnswers [] = .error .noPages ∧
    (∀ a, combineAnswers [a] = .ok a) ∧
    (∀ answers, 2 ≤ answers.length →
      combineAnswers answers = .ok (joinSep "\n\n" (specBlocks 1 answers))) := by
  refine ⟨rfl, fun a => rfl, ?_⟩
  intro answers h
  cases answers with
  | nil => simp at h
  | cons a rest =>
    cases rest with
    | nil => simp at h
    | cons b rest2 =>
      show Except.ok (joinSep "\n\n" (answerParts 0 (a :: b :: rest2)))
        = Except.ok (joinSep "\n\n" (specBlocks 1 (a :: b :: rest2)))
      rw [answerParts_eq_specBlocks (a :: b :: rest2) 0]

/-- C5 witness: three pages with a whitespace-only middle page produce
exactly two labeled blocks, numbered 1 and 3, joined by one blank line;
a single page comes back verbatim. -/
theorem combine_answers_policy_witness :
    combineAnswers ["A", " ", "C"] = .ok "--- Page 1 ---\nA\n\n--- Page 3 ---\nC" ∧
    combineAnswers ["solo"] = .ok "solo" := by
  constructor
  · have h := combine_answers_policy.2.2 ["A", " ", "C"] (by decide)
    rw [h]
    decide
  · exact combine_answers_policy.2.1 "solo"

/-! ## Claim C10 — token accounting -/

theorem accTokens_go (reports : List (Option Nat)) :
    ∀ acc, reports.foldl (fun acc r =>
        match r with
        | some t => acc + t
        | none => acc) acc
      = acc + (reports.filterMap id).sum := by
  induction reports with
  | nil => intro acc; simp
  | cons r rest ih =>
    intro acc
    cases r with
    | none => simp [ih]
    | some t => simp [ih, Nat.add_assoc]

/-- C10 counterexample: a one-page query whose page reports a token count
of 0 stores a null total (`total_tokens or None`), although a page did
report a count — "null exactly when no page reported" fails. -/
theorem tokens_zero_report_cex :
    queryTokensUsed [some 0] = none ∧
    ([some 0] : List (Option Nat)).filterMap id = [0] := by
  exact ⟨by decide, by decide⟩

/-- C10 (amended): the query result's token usage is the sum of the
per-page token counts over pages that reported one whenever that sum is
nonzero, and it is null exactly when that sum is zero — in particular
when no page reported a count, but also when pages reported counts
summing to zero. -/
theorem tokens_sum_or_none (reports : List (Option Nat)) :
    queryTokensUsed reports
      = (if (reports.filterMap id).sum = 0 then none
         else some ((reports.filterMap id).sum)) ∧
    (queryTokensUsed reports = none ↔ (reports.filterMap id).sum = 0) := by
  have hacc : accTokens reports = (reports.filterMap id).sum := by
    have h := accTokens_go reports 0
    simpa [accTokens] using h
  constructor
  · unfold queryTokensUsed orNone
    rw [hacc]
  · unfold queryTokensUsed orNone
    rw [hacc]
    by_cases h : (reports.filterMap id).sum = 0
    · simp [h]
    · simp [h]
